import Mathlib

/-!
Shallow embedding of the payload-dumper OTA extractor (`src/payload.rs`,
`src/partition/*.rs`) and proofs about its claims.

Modelling conventions:
- Byte strings (Rust `Vec<u8>` / `String` contents) are `List Nat`; Rust's
  `str` ordering is byte-wise, which coincides with the lexicographic order
  on the UTF-8 byte lists, so partition names are compared with the
  `List Nat` lexicographic order.
- `u64` arithmetic on sizes and offsets is modelled as `Nat`: an overflow in
  the Rust build panics (aborts) rather than producing output, so wraparound
  never yields observable data.
- `std::io::Error::new(kind, format!(...))` is modelled structurally: the
  error carries its kind and the dynamic parts of the formatted message.
- The external codec libraries (xz, bzip2, zstd) and SHA-256 are not part of
  this repository; they enter as an explicit environment `Env` of functions,
  universally quantified in the theorems.
-/

/-- Propositional equality of `Except` values is decidable componentwise;
needed so witnesses can evaluate pipeline results by `decide`. -/
instance {ε α : Type} [DecidableEq ε] [DecidableEq α] :
    DecidableEq (Except ε α) := fun a b =>
  match a, b with
  | .ok x, .ok y =>
    if h : x = y then .isTrue (by simp [h]) else .isFalse (by simp [h])
  | .error x, .error y =>
    if h : x = y then .isTrue (by simp [h]) else .isFalse (by simp [h])
  | .ok _, .error _ => .isFalse (by simp)
  | .error _, .ok _ => .isFalse (by simp)

namespace PayloadDumper

/-- Byte strings: Rust `Vec<u8>` and UTF-8 string contents. -/
abbrev Bytes := List Nat

/-- Block size constant, `BLOCK_SIZE` in `src/payload.rs`. -/
def BLOCK_SIZE : Nat := 4096

/-- Header size in bytes: 4-byte magic + 8-byte version + 8-byte manifest
size + 4-byte signature size, `HEADER_SIZE` in `src/payload.rs`. -/
def HEADER_SIZE : Nat := 24

/-- The `install_operation::Type` protobuf enum from
`update_metadata.proto` (generated into the crate by `build.rs`). -/
inductive OpType where
  | replace
  | replaceBz
  | move
  | bsdiff
  | sourceCopy
  | sourceBsdiff
  | zero
  | discard
  | replaceXz
  | puffdiff
  | brotliBsdiff
  | zucchini
  | lz4diffBsdiff
  | lz4diffPuffdiff
  | replaceZstd
deriving DecidableEq, Repr

/-- A destination extent of an install operation (`Extent` message):
a `(start_block, num_blocks)` pair in 4096-byte block units. -/
structure Extent where
  start_block : Nat
  num_blocks : Nat
deriving DecidableEq, Repr

/-- An `InstallOperation` message: operation type, source range in the data
blob, expected SHA-256 of the encoded bytes, destination extents. -/
structure InstallOperation where
  type : OpType
  data_offset : Nat
  data_length : Nat
  data_sha256_hash : Bytes
  dst_extents : List Extent
deriving DecidableEq, Repr

/-- A `PartitionUpdate` manifest entry: name plus its install operations. -/
structure PartitionUpdate where
  partition_name : Bytes
  operations : List InstallOperation
deriving DecidableEq, Repr

instance : Inhabited PartitionUpdate := ⟨⟨[], []⟩⟩

/-- The payload container header (`Header` in `src/payload.rs`); the magic
is validated at open time and carries no further information. -/
structure Header where
  major_version : Nat
  manifest_size : Nat
  manifest_signature_size : Nat
deriving DecidableEq, Repr

/-- In-memory payload (`Payload` in `src/payload.rs`): header, the
name-sorted partition list from the manifest, and the verification toggle.
Progress reporting is external and does not affect the binary contract. -/
structure Payload where
  header : Header
  partitions : List PartitionUpdate
  verify : Bool
deriving Repr

/-- Output of running one of the external decompressors over an encoded
buffer: the byte stream it can produce, and whether the stream ends cleanly
(`clean = false` means the decoder raises an error after `bytes`). -/
structure CodecOut where
  bytes : Bytes
  clean : Bool
deriving DecidableEq, Repr

/-- The external collaborators: SHA-256 and the three decompressors.
`zstd` may fail at construction (`Decoder::new(...)?` in the source). -/
structure Env where
  sha256 : Bytes → Bytes
  xz : Bytes → CodecOut
  bz : Bytes → CodecOut
  zstd : Bytes → Except Unit CodecOut

/-- Dynamic content of a formatted `std::io::Error` message. -/
inductive ErrMsg where
  | invalidDstExtents (partitionName : Bytes)
  | hashMismatch (expectedHex gotHex : Bytes)
  | invalidOperationType (t : OpType)
  | externalDecoderError
deriving DecidableEq, Repr

/-- An `std::io::Error`: its kind plus the structured message content. -/
inductive IoError where
  | invalidData (m : ErrMsg)
  | other (m : ErrMsg)
  | unexpectedEof
deriving DecidableEq, Repr

/-- One lowercase hex digit byte, as produced by `hex::encode`. -/
def hexDigitByte (n : Nat) : Nat :=
  if n < 10 then 48 + n else 87 + n

/-- Lowercase hex encoding of a byte string (`hex::encode`), as the UTF-8
bytes of the resulting string. -/
def hexEncode (bs : Bytes) : Bytes :=
  (bs.map fun b => [hexDigitByte (b / 16 % 16), hexDigitByte (b % 16)]).flatten

/-- Select the decompressor for a compressed replace type, mirroring the
inner `match` in `Payload::extract`; only called on the three compressed
types, other types never reach it. -/
def codecOf (env : Env) (t : OpType) (blob : Bytes) : Except Unit CodecOut :=
  match t with
  | .replaceXz => .ok (env.xz blob)
  | .replaceZstd => env.zstd blob
  | _ => .ok (env.bz blob)

/-- `Read::read_exact` of `n` bytes from a decoder stream: succeeds with
exactly `n` bytes when the stream has at least `n`, otherwise fails (with
end-of-file if the stream ended cleanly, the decoder's error otherwise). -/
def streamReadExact (c : CodecOut) (n : Nat) : Except IoError Bytes :=
  if n ≤ c.bytes.length then .ok (c.bytes.take n)
  else if c.clean then .error .unexpectedEof
  else .error (.other .externalDecoderError)

/-- Per-operation decode: the `match operation.r#type()` block in
`Payload::extract` (`src/payload.rs` lines 251-270, same dispatch as
`PartitionDecoder::write_extent`). `expected` is the first destination
extent's `num_blocks * BLOCK_SIZE`. -/
def decodeOp (env : Env) (t : OpType) (blob : Bytes) (expected : Nat) :
    Except IoError Bytes :=
  match t with
  | .zero => .ok (List.replicate expected 0)
  | .replace => .ok blob
  | .replaceXz | .replaceBz | .replaceZstd =>
    match codecOf env t blob with
    | .error _ => .error (.other .externalDecoderError)
    | .ok c => streamReadExact c expected
  | t => .error (.other (.invalidOperationType t))

/-- Absolute file offset of the data blob region,
`Payload::data_offset` (`src/payload.rs` lines 162-164). -/
def Payload.dataOffset (p : Payload) : Nat :=
  HEADER_SIZE + p.header.manifest_size + p.header.manifest_signature_size

/-- `Payload::read_data_blob` (`src/payload.rs` lines 170-175):
positioned read of `len` bytes at `data_offset() + offset` from the payload
file; `read_exact_at` fails when the file is too short. -/
def readDataBlob (file : Bytes) (p : Payload) (offset len : Nat) :
    Except IoError Bytes :=
  if p.dataOffset + offset + len ≤ file.length then
    .ok ((file.drop (p.dataOffset + offset)).take len)
  else
    .error .unexpectedEof

/-- The verification step of `Payload::extract` (`src/payload.rs` lines
239-249): when verification is on and the type is not ZERO, compare the
lowercase-hex SHA-256 of the just-read encoded bytes with the operation's
declared hash, failing with an error that names both digests. -/
def verifyHash (env : Env) (p : Payload) (op : InstallOperation)
    (blob : Bytes) : Except IoError Unit :=
  if p.verify = true ∧ op.type ≠ OpType.zero then
    let hash := hexEncode (env.sha256 blob)
    let expectedHash := hexEncode op.data_sha256_hash
    if hash ≠ expectedHash then
      .error (.invalidData (.hashMismatch expectedHash hash))
    else
      .ok ()
  else
    .ok ()

/-- One iteration of the operation loop in `Payload::extract`
(`src/payload.rs` lines 227-274): take the first destination extent (error
if there is none), read the encoded bytes from the data blob, verify the
hash, decode, and produce the pending write
`(start_block * BLOCK_SIZE, decoded)`. -/
def processOp (env : Env) (p : Payload) (file : Bytes) (name : Bytes)
    (op : InstallOperation) : Except IoError (Nat × Bytes) :=
  match op.dst_extents.head? with
  | none => .error (.invalidData (.invalidDstExtents name))
  | some dst =>
    match readDataBlob file p op.data_offset op.data_length with
    | .error e => .error e
    | .ok blob =>
      match verifyHash env p op blob with
      | .error e => .error e
      | .ok _ =>
        match decodeOp env op.type blob (dst.num_blocks * BLOCK_SIZE) with
        | .error e => .error e
        | .ok decoded => .ok (dst.start_block * BLOCK_SIZE, decoded)

/-- The operation loop of `Payload::extract`: process operations in
manifest order, accumulating the writes issued so far; the first failing
operation aborts the loop, returning the writes already issued and the
error. -/
def extractOps (env : Env) (p : Payload) (file : Bytes) (name : Bytes) :
    List InstallOperation → List (Nat × Bytes) →
    List (Nat × Bytes) × Option IoError
  | [], acc => (acc, none)
  | op :: rest, acc =>
    match processOp env p file name op with
    | .error e => (acc, some e)
    | .ok w => extractOps env p file name rest (acc ++ [w])

/-- Observable outcome of `Payload::extract`: either the partition name was
not found (prints a notice and returns `Ok(())` without creating a file),
or an output file was created and the listed positioned writes were issued,
with `err = some e` when the loop aborted with error `e`. -/
inductive ExtractResult where
  | notFound
  | run (writes : List (Nat × Bytes)) (err : Option IoError)
deriving DecidableEq, Repr

/-- Binary search over the name-sorted partition slice, the semantics of
`slice::binary_search_by_key` used by `Payload::partition`: classic
half-interval search on `[left, right)`; `Ok idx` when the key is found,
`Err insertion_point` otherwise. Fuel is structural and is always
sufficient (`right - left` shrinks every step). -/
def bsearchAux (ps : List PartitionUpdate) (key : Bytes) :
    Nat → Nat → Nat → Except Nat Nat
  | 0, left, _right => .error left
  | fuel + 1, left, right =>
    if left < right then
      if (ps.getD (left + (right - left) / 2) default).partition_name < key
      then
        bsearchAux ps key fuel (left + (right - left) / 2 + 1) right
      else if
        key < (ps.getD (left + (right - left) / 2) default).partition_name
      then
        bsearchAux ps key fuel left (left + (right - left) / 2)
      else .ok (left + (right - left) / 2)
    else .error left

/-- `self.partitions().binary_search_by_key(&partition, |p| p.partition_name)`
over the whole sorted list. -/
def binarySearchByName (ps : List PartitionUpdate) (key : Bytes) :
    Except Nat Nat :=
  bsearchAux ps key (ps.length + 1) 0 ps.length

/-- `Payload::partition` (`src/payload.rs` lines 200-204): binary search by
name, mapping a found index to the entry at that index. -/
def partitionLookup (ps : List PartitionUpdate) (key : Bytes) :
    Except Nat PartitionUpdate :=
  (binarySearchByName ps key).map fun idx => ps.getD idx default

/-- `Payload::extract` (`src/payload.rs` lines 206-278), with file-system
effects reified: partition lookup, then the operation loop. -/
def extract (env : Env) (p : Payload) (file : Bytes) (name : Bytes) :
    ExtractResult :=
  match partitionLookup p.partitions name with
  | .error _ => .notFound
  | .ok part =>
    let r := extractOps env p file part.partition_name part.operations []
    .run r.1 r.2

/-- `File::write_all_at(data, off)` on a file with contents `f`: the region
`[off, off + data.length)` is overwritten, the file is zero-extended first
when `off` lies past its end. -/
def writeAt (f : Bytes) (off : Nat) (data : Bytes) : Bytes :=
  let g := f ++ List.replicate (off - f.length) 0
  g.take off ++ data ++ g.drop (off + data.length)

/-- Contents of the output file after the issued writes; `File::create`
truncates, so writes always start from an empty file. -/
def applyWrites (ws : List (Nat × Bytes)) : Bytes :=
  ws.foldl (fun f w => writeAt f w.1 w.2) []

/-- Contents of the output file for the requested partition after one
`extract` call, given its prior contents: a not-found call never creates
or touches the file; otherwise `File::create` truncates and the issued
writes are applied. -/
def applyExtract (prior : Bytes) (r : ExtractResult) : Bytes :=
  match r with
  | .notFound => prior
  | .run ws _ => applyWrites ws

/-- The by-name order used to sort the partition list. -/
def byName (a b : PartitionUpdate) : Prop :=
  a.partition_name ≤ b.partition_name

instance : DecidableRel byName := fun a b =>
  inferInstanceAs (Decidable (a.partition_name ≤ b.partition_name))

instance : IsTotal PartitionUpdate byName :=
  ⟨fun a b => le_total a.partition_name b.partition_name⟩

instance : IsTrans PartitionUpdate byName :=
  ⟨fun _ _ _ hab hbc => le_trans hab hbc⟩

/-- The load-time sort of the manifest partition list:
`manifest.partitions.sort_by_key(|p| p.partition_name)` in
`Payload::try_from` (`src/payload.rs` lines 124-127). Rust's
`sort_by_key` is a stable sort; `List.insertionSort` is also stable, and
with unique names (the manifest invariant) every stable by-name sort
produces the same list. -/
def sortPartitions (ps : List PartitionUpdate) : List PartitionUpdate :=
  List.insertionSort byName ps

/-- `Payload::try_from` after header/manifest/signature decoding succeeds
(`src/payload.rs` lines 137-145): the in-memory payload holds the
name-sorted partition list; `verify` defaults to `true` and is cleared by
`no_verify`. -/
def loadPayload (hdr : Header) (parts : List PartitionUpdate)
    (verify : Bool) : Payload :=
  { header := hdr, partitions := sortPartitions parts, verify := verify }

/-- `Payload::partition_list` (`src/payload.rs` lines 177-182): the names
of the (sorted) partition list, in order. -/
def partitionList (p : Payload) : List Bytes :=
  p.partitions.map fun q => q.partition_name

/-- Names of a raw (unsorted) partition list, for stating claims about the
manifest contents. -/
def namesOf (ps : List PartitionUpdate) : List Bytes :=
  ps.map fun q => q.partition_name

/-- A partition list sorted strictly ascending by name (sorted with unique
names, the manifest invariant assumed by `Payload::partition`). -/
def strictByName (ps : List PartitionUpdate) : Prop :=
  List.Pairwise (fun a b => a.partition_name < b.partition_name) ps

instance (ps : List PartitionUpdate) : Decidable (strictByName ps) :=
  inferInstanceAs (Decidable (List.Pairwise
    (fun a b : PartitionUpdate => a.partition_name < b.partition_name) ps))

theorem not_mem_namesOf (ps : List PartitionUpdate) (key : Bytes)
    (h : ∀ i, i < ps.length → (ps.getD i default).partition_name ≠ key) :
    key ∉ namesOf ps := by
  intro hmem
  rcases List.mem_map.mp hmem with ⟨a, ha, hname⟩
  rcases List.mem_iff_get.mp ha with ⟨⟨i, hi⟩, hget⟩
  refine h i hi ?_
  rw [List.getD_eq_getElem ps default hi]
  rw [List.get_eq_getElem] at hget
  rw [hget, hname]

theorem strict_getD_lt {ps : List PartitionUpdate} (hs : strictByName ps)
    {i j : Nat} (hij : i < j) (hj : j < ps.length) :
    (ps.getD i default).partition_name <
      (ps.getD j default).partition_name := by
  have hi : i < ps.length := lt_trans hij hj
  rw [List.getD_eq_getElem ps default hi, List.getD_eq_getElem ps default hj]
  have := List.pairwise_iff_get.mp hs ⟨i, hi⟩ ⟨j, hj⟩ hij
  simpa using this

theorem bsearchAux_spec (ps : List PartitionUpdate) (key : Bytes)
    (hs : strictByName ps) :
    ∀ fuel left right, right ≤ ps.length → right - left ≤ fuel →
    (∀ i, i < left → i < ps.length →
      (ps.getD i default).partition_name < key) →
    (∀ i, right ≤ i → i < ps.length →
      key < (ps.getD i default).partition_name) →
    (∀ m, bsearchAux ps key fuel left right = .ok m →
      m < ps.length ∧ (ps.getD m default).partition_name = key) ∧
    (∀ j, bsearchAux ps key fuel left right = .error j →
      key ∉ namesOf ps) := by
  intro fuel
  induction fuel with
  | zero =>
    intro left right hr hf hlo hhi
    constructor
    · intro m hm
      simp [bsearchAux] at hm
    · intro j _
      refine not_mem_namesOf ps key fun i hi => ?_
      by_cases hil : i < left
      · exact ne_of_lt (hlo i hil hi)
      · have : right ≤ i := by omega
        exact (ne_of_lt (hhi i this hi)).symm
  | succ fuel ih =>
    intro left right hr hf hlo hhi
    by_cases hlr : left < right
    · have hmidlt : left + (right - left) / 2 < right := by
        have : (right - left) / 2 < right - left :=
          Nat.div_lt_self (by omega) (by omega)
        omega
      have hmidlen : left + (right - left) / 2 < ps.length := by omega
      by_cases h1 :
          (ps.getD (left + (right - left) / 2) default).partition_name < key
      · have hunfold : bsearchAux ps key (fuel + 1) left right =
            bsearchAux ps key fuel (left + (right - left) / 2 + 1) right := by
          show (if left < right then _ else _) = _
          rw [if_pos hlr, if_pos h1]
        rw [hunfold]
        exact ih (left + (right - left) / 2 + 1) right hr (by omega)
          (fun i hil hi => by
            by_cases hil2 : i < left
            · exact hlo i hil2 hi
            · by_cases hieq : i = left + (right - left) / 2
              · rw [hieq]; exact h1
              · have : i < left + (right - left) / 2 := by omega
                exact lt_trans (strict_getD_lt hs this hmidlen) h1)
          hhi
      · by_cases h2 :
            key < (ps.getD (left + (right - left) / 2) default).partition_name
        · have hunfold : bsearchAux ps key (fuel + 1) left right =
              bsearchAux ps key fuel left (left + (right - left) / 2) := by
            show (if left < right then _ else _) = _
            rw [if_pos hlr, if_neg h1, if_pos h2]
          rw [hunfold]
          exact ih left (left + (right - left) / 2) (by omega)
            (by omega) hlo
            (fun i hil hi => by
              by_cases hieq : i = left + (right - left) / 2
              · rw [hieq]; exact h2
              · have : left + (right - left) / 2 < i := by omega
                exact lt_trans h2 (strict_getD_lt hs this hi))
        · have heq :
              (ps.getD (left + (right - left) / 2) default).partition_name =
                key :=
            le_antisymm (not_lt.mp h2) (not_lt.mp h1)
          have hunfold : bsearchAux ps key (fuel + 1) left right =
              .ok (left + (right - left) / 2) := by
            show (if left < right then _ else _) = _
            rw [if_pos hlr, if_neg h1, if_neg h2]
          rw [hunfold]
          constructor
          · intro m hm
            have hm2 : left + (right - left) / 2 = m := by
              exact Except.ok.inj hm
            rw [← hm2]
            exact ⟨hmidlen, heq⟩
          · intro j hj
            exact absurd hj (by simp)
    · constructor
      · intro m hm
        simp [bsearchAux, hlr] at hm
      · intro j _
        refine not_mem_namesOf ps key fun i hi => ?_
        by_cases hil : i < left
        · exact ne_of_lt (hlo i hil hi)
        · have : right ≤ i := by omega
          exact (ne_of_lt (hhi i this hi)).symm

theorem binarySearchByName_spec (ps : List PartitionUpdate) (key : Bytes)
    (hs : strictByName ps) :
    (∀ m, binarySearchByName ps key = .ok m →
      m < ps.length ∧ (ps.getD m default).partition_name = key) ∧
    (∀ j, binarySearchByName ps key = .error j → key ∉ namesOf ps) := by
  refine bsearchAux_spec ps key hs (ps.length + 1) 0 ps.length le_rfl
    (by omega) (fun i hi _ => absurd hi (by omega))
    (fun i hge hlt => absurd hge (by omega))

theorem partitionLookup_ok {ps : List PartitionUpdate} {key : Bytes}
    {u : PartitionUpdate} (hs : strictByName ps)
    (h : partitionLookup ps key = .ok u) :
    u ∈ ps ∧ u.partition_name = key := by
  unfold partitionLookup at h
  cases hb : binarySearchByName ps key with
  | error j => rw [hb] at h; exact absurd h (by simp [Except.map])
  | ok m =>
    rw [hb] at h
    have h2 : ps.getD m default = u := Except.ok.inj h
    obtain ⟨hm, hname⟩ := (binarySearchByName_spec ps key hs).1 m hb
    constructor
    · rw [← h2, List.getD_eq_getElem ps default hm]
      exact List.getElem_mem hm
    · rw [← h2]; exact hname

theorem partitionLookup_error {ps : List PartitionUpdate} {key : Bytes}
    {j : Nat} (hs : strictByName ps)
    (h : partitionLookup ps key = .error j) : key ∉ namesOf ps := by
  unfold partitionLookup at h
  cases hb : binarySearchByName ps key with
  | error j2 => exact (binarySearchByName_spec ps key hs).2 j2 hb
  | ok m => rw [hb] at h; exact absurd h (by simp [Except.map])

theorem partitionLookup_found {ps : List PartitionUpdate} {key : Bytes}
    (hs : strictByName ps) (hmem : key ∈ namesOf ps) :
    ∃ u, partitionLookup ps key = .ok u := by
  cases hb : partitionLookup ps key with
  | ok u => exact ⟨u, rfl⟩
  | error j => exact absurd hmem (partitionLookup_error hs hb)

theorem partitionLookup_not_found {ps : List PartitionUpdate} {key : Bytes}
    (hs : strictByName ps) (habs : key ∉ namesOf ps) :
    ∃ j, partitionLookup ps key = .error j := by
  cases hb : partitionLookup ps key with
  | error j => exact ⟨j, rfl⟩
  | ok u => exact absurd ((partitionLookup_ok hs hb).2 ▸
      List.mem_map_of_mem (fun q => q.partition_name)
        (partitionLookup_ok hs hb).1) habs

theorem sortPartitions_perm (ps : List PartitionUpdate) :
    (sortPartitions ps).Perm ps :=
  List.perm_insertionSort byName ps

theorem sortPartitions_sorted (ps : List PartitionUpdate) :
    List.Sorted byName (sortPartitions ps) :=
  List.sorted_insertionSort byName ps

theorem strictByName_of_sorted_nodup {ps : List PartitionUpdate}
    (hsort : List.Sorted byName ps) (hnd : (namesOf ps).Nodup) :
    strictByName ps := by
  have hnd2 : (ps.map fun q => q.partition_name).Pairwise
      fun a b : Bytes => a ≠ b := hnd
  have hpair : List.Pairwise
      (fun a b : PartitionUpdate => a.partition_name ≠ b.partition_name)
      ps := List.pairwise_map.mp hnd2
  exact (hsort.and hpair).imp fun h => lt_of_le_of_ne h.1 h.2

theorem sortPartitions_strict {ps : List PartitionUpdate}
    (hnd : (namesOf ps).Nodup) : strictByName (sortPartitions ps) := by
  refine strictByName_of_sorted_nodup (sortPartitions_sorted ps) ?_
  have hperm : ((sortPartitions ps).map fun q => q.partition_name).Perm
      (ps.map fun q => q.partition_name) :=
    (sortPartitions_perm ps).map fun q => q.partition_name
  exact hperm.nodup_iff.mpr hnd

/-- Writes issued by an `extract` call (empty when the name was absent). -/
def runWrites : ExtractResult → List (Nat × Bytes)
  | .notFound => []
  | .run ws _ => ws

/-- Error with which an `extract` call's operation loop aborted, if any. -/
def runErr : ExtractResult → Option IoError
  | .notFound => none
  | .run _ e => e

theorem extractOps_abort (env : Env) (p : Payload) (file : Bytes)
    (name : Bytes) (op : InstallOperation) (rest : List InstallOperation)
    (acc : List (Nat × Bytes)) (e : IoError)
    (h : processOp env p file name op = .error e) :
    extractOps env p file name (op :: rest) acc = (acc, some e) := by
  simp [extractOps, h]

theorem extractOps_step_ok (env : Env) (p : Payload) (file : Bytes)
    (name : Bytes) (op : InstallOperation) (rest : List InstallOperation)
    (acc : List (Nat × Bytes)) (w : Nat × Bytes)
    (h : processOp env p file name op = .ok w) :
    extractOps env p file name (op :: rest) acc =
      extractOps env p file name rest (acc ++ [w]) := by
  simp [extractOps, h]

theorem extractOps_prefix_ok (env : Env) (p : Payload) (file : Bytes)
    (name : Bytes) :
    ∀ (pre tail : List InstallOperation) (acc : List (Nat × Bytes)),
    (∀ q ∈ pre, ∃ w, processOp env p file name q = .ok w) →
    ∃ ws, extractOps env p file name (pre ++ tail) acc =
        extractOps env p file name tail (acc ++ ws) ∧
      ws.length = pre.length := by
  intro pre
  induction pre with
  | nil => intro tail acc _; exact ⟨[], by simp⟩
  | cons q pre ih =>
    intro tail acc hok
    obtain ⟨w, hw⟩ := hok q (List.mem_cons_self q pre)
    obtain ⟨ws, hws, hlen⟩ := ih tail (acc ++ [w])
      fun r hr => hok r (List.mem_cons_of_mem q hr)
    refine ⟨w :: ws, ?_, by simp [hlen]⟩
    rw [List.cons_append, extractOps_step_ok env p file name q _ acc w hw,
      hws]
    simp

/-- Concrete trivial environment used by witnesses: SHA-256 returns the
empty digest and all decompressors produce empty clean streams. -/
def env0 : Env :=
  { sha256 := fun _ => [], xz := fun _ => ⟨[], true⟩,
    bz := fun _ => ⟨[], true⟩, zstd := fun _ => .ok ⟨[], true⟩ }

/-- Environment whose xz decompressor always yields the 3-byte clean
stream `[7, 7, 7]`. -/
def xzEnv3 : Env :=
  { sha256 := fun _ => [], xz := fun _ => ⟨[7, 7, 7], true⟩,
    bz := fun _ => ⟨[], true⟩, zstd := fun _ => .ok ⟨[], true⟩ }

/-- A 24-byte payload file: header only, empty manifest and signature. -/
def file24 : Bytes := List.replicate 24 0

/-- A 25-byte payload file whose data blob region is the single byte 171. -/
def file25 : Bytes := List.replicate 24 0 ++ [171]

/-- Header of a payload with empty manifest and signature blobs. -/
def hdr0 : Header := ⟨2, 0, 0⟩

/-- A one-operation REPLACE partition named "p" (byte 112), reading one
encoded byte at blob offset 0 into one 4096-byte destination block. -/
def repPart : PartitionUpdate :=
  ⟨[112], [⟨.replace, 0, 1, [], [⟨0, 1⟩]⟩]⟩

/-- Payload with the single REPLACE partition and verification off. -/
def repPayload : Payload :=
  { header := hdr0, partitions := [repPart], verify := false }

/-- Payload with verification on (partition list unused by `processOp`). -/
def hashPayload : Payload := { header := hdr0, partitions := [], verify := true }

/-- A REPLACE operation declaring the hash `[0]` over zero encoded bytes;
its digest under `env0` is empty, so verification must fail. -/
def hashOp : InstallOperation := ⟨.replace, 0, 0, [0], [⟨0, 0⟩]⟩

/-- Payload with verification on, for the ZERO-operation witness. -/
def zeroPayload : Payload := { header := hdr0, partitions := [], verify := true }

/-- A ZERO operation over one destination block whose declared source
range is the 1-byte blob (content irrelevant). -/
def zeroOp : InstallOperation := ⟨.zero, 0, 1, [], [⟨0, 1⟩]⟩

/-- A MOVE operation: a type the decoder does not support. -/
def moveOp : InstallOperation := ⟨.move, 0, 1, [], [⟨0, 1⟩]⟩

/-- Payload with verification off, for the unsupported-type witness. -/
def movePayload : Payload := { header := hdr0, partitions := [], verify := false }

/-- A three-partition manifest in unsorted order with unique names. -/
def shuffledParts : List PartitionUpdate :=
  [⟨[98], []⟩, ⟨[97], []⟩, ⟨[99], []⟩]

/-- A name-sorted three-partition list with unique names. -/
def sorted3 : List PartitionUpdate :=
  [⟨[97], []⟩, ⟨[98], []⟩, ⟨[99], []⟩]

/-- Partition "q" (byte 113) whose first operation is a well-formed
REPLACE and whose second operation has an empty destination-extent list
and a source range far outside the payload file. -/
def badExtentsPart : PartitionUpdate :=
  ⟨[113], [⟨.replace, 0, 1, [], [⟨0, 1⟩]⟩, ⟨.replace, 5000, 5000, [], []⟩]⟩

/-- Payload containing only `badExtentsPart`, verification off. -/
def badExtentsPayload : Payload :=
  { header := hdr0, partitions := [badExtentsPart], verify := false }

/-- C1 counterexample: the claim as stated is false for REPLACE. A REPLACE
operation whose encoded bytes are 1 byte long while the first destination
extent declares 1 block (expected decoded length 4096) decodes
successfully, returning the encoded bytes unchanged, and `extract` issues
the silently-short 1-byte write with no error. -/
theorem c1_counterexample :
    decodeOp env0 .replace [171] 4096 = .ok [171]
    ∧ ([171] : Bytes).length ≠ 4096
    ∧ extract env0 repPayload file25 [112] = .run [(0, [171])] none := by
  refine ⟨rfl, by decide, by decide⟩

/-- C1 (amended): per-operation decode length contract. ZERO yields exactly
`expected` zero bytes; REPLACE returns the encoded bytes unchanged without
any check of their length against the expected decoded length; each
compressed replace type fails when the decompressor errors at construction
or yields fewer than `expected` bytes, and otherwise succeeds with exactly
`expected` bytes, never truncating or padding. -/
theorem c1_decode_length_contract (env : Env) (blob : Bytes) :
    (∀ expected, decodeOp env .replace blob expected = .ok blob)
    ∧ (∀ expected, decodeOp env .zero blob expected =
        .ok (List.replicate expected 0)
      ∧ (List.replicate expected 0).length = expected)
    ∧ (∀ t, t = OpType.replaceXz ∨ t = OpType.replaceBz ∨
        t = OpType.replaceZstd →
      (∀ e, codecOf env t blob = .error e → ∀ expected,
        decodeOp env t blob expected = .error (.other .externalDecoderError))
      ∧ (∀ c, codecOf env t blob = .ok c → ∀ expected,
        (expected ≤ c.bytes.length →
          decodeOp env t blob expected = .ok (c.bytes.take expected)
          ∧ (c.bytes.take expected).length = expected)
        ∧ (c.bytes.length < expected →
          ∃ er, decodeOp env t blob expected = .error er))) := by
  refine ⟨fun _ => rfl, fun expected => ⟨rfl, List.length_replicate _ _⟩,
    fun t ht => ⟨?_, ?_⟩⟩
  · intro e he expected
    rcases ht with h | h | h <;> subst h <;>
      simp only [decodeOp, he]
  · intro c hc expected
    constructor
    · intro hle
      have hdec : decodeOp env t blob expected = streamReadExact c expected := by
        rcases ht with h | h | h <;> subst h <;> simp only [decodeOp, hc]
      rw [hdec]
      unfold streamReadExact
      rw [if_pos hle]
      exact ⟨rfl, by simp [List.length_take]; omega⟩
    · intro hlt
      have hdec : decodeOp env t blob expected = streamReadExact c expected := by
        rcases ht with h | h | h <;> subst h <;> simp only [decodeOp, hc]
      rw [hdec]
      unfold streamReadExact
      rw [if_neg (by omega)]
      by_cases hcl : c.clean
      · exact ⟨.unexpectedEof, by rw [if_pos hcl]⟩
      · exact ⟨.other .externalDecoderError, by rw [if_neg hcl]⟩

/-- C1 amended-claim witness at concrete inputs: REPLACE passes a 2-byte
blob through, ZERO produces 3 zero bytes, and XZ with a 3-byte decoded
stream against expected length 2 yields exactly the first 2 bytes. -/
theorem c1_decode_length_contract_witness :
    decodeOp env0 .replace [1, 2] 5 = .ok [1, 2]
    ∧ decodeOp env0 .zero [9] 3 = .ok (List.replicate 3 0)
    ∧ decodeOp xzEnv3 .replaceXz [9] 2 =
        .ok ((⟨[7, 7, 7], true⟩ : CodecOut).bytes.take 2) :=
  ⟨(c1_decode_length_contract env0 [1, 2]).1 5,
    ((c1_decode_length_contract env0 [9]).2.1 3).1,
    ((((c1_decode_length_contract xzEnv3 [9]).2.2 .replaceXz
      (Or.inl rfl)).2 ⟨[7, 7, 7], true⟩ rfl 2).1 (by decide)).1⟩

/-- C2: with verification on and a non-ZERO operation type, the SHA-256
digest is computed over the encoded bytes just read and compared as
lowercase hex against `data_sha256_hash`; on mismatch the operation fails
with an integrity error naming both digests, the result is the same for
any environment with the same SHA-256 (so no decompressor ever runs: the
digest is over pre-decode bytes and the failure precedes decoding), the
loop aborts the partition issuing no write for that operation, and for
ZERO operations the result never depends on the SHA-256 function at all
(the check is skipped). -/
theorem c2_hash_over_encoded_bytes (env : Env) (p : Payload) (file : Bytes)
    (name : Bytes) (op : InstallOperation) (dst : Extent) (blob : Bytes)
    (hverify : p.verify = true) (htype : op.type ≠ OpType.zero)
    (hdst : op.dst_extents.head? = some dst)
    (hread : readDataBlob file p op.data_offset op.data_length = .ok blob)
    (hmism : hexEncode (env.sha256 blob) ≠ hexEncode op.data_sha256_hash) :
    (∀ env2 : Env, env2.sha256 = env.sha256 →
      processOp env2 p file name op =
        .error (.invalidData (.hashMismatch (hexEncode op.data_sha256_hash)
          (hexEncode (env.sha256 blob)))))
    ∧ (∀ rest acc, extractOps env p file name (op :: rest) acc =
        (acc, some (.invalidData
          (.hashMismatch (hexEncode op.data_sha256_hash)
            (hexEncode (env.sha256 blob))))))
    ∧ (∀ (e1 e2 : Env) (op2 : InstallOperation), op2.type = OpType.zero →
        processOp e1 p file name op2 = processOp e2 p file name op2) := by
  have hfail : ∀ env2 : Env, env2.sha256 = env.sha256 →
      processOp env2 p file name op =
        .error (.invalidData (.hashMismatch (hexEncode op.data_sha256_hash)
          (hexEncode (env.sha256 blob)))) := by
    intro env2 hsha
    simp only [processOp, hdst, hread]
    have hv : verifyHash env2 p op blob =
        .error (.invalidData (.hashMismatch (hexEncode op.data_sha256_hash)
          (hexEncode (env.sha256 blob)))) := by
      unfold verifyHash
      rw [if_pos ⟨hverify, htype⟩, hsha, if_pos hmism]
    rw [hv]
  refine ⟨hfail, ?_, ?_⟩
  · intro rest acc
    exact extractOps_abort env p file name op rest acc _ (hfail env rfl)
  · intro e1 e2 op2 hz
    simp only [processOp]
    cases op2.dst_extents.head? with
    | none => rfl
    | some dst2 =>
      dsimp only
      cases readDataBlob file p op2.data_offset op2.data_length with
      | error e => rfl
      | ok blob2 =>
        dsimp only
        have hv : ∀ e3 : Env, verifyHash e3 p op2 blob2 = .ok () := by
          intro e3
          unfold verifyHash
          rw [if_neg (by simp [hz])]
        have hdz : ∀ e3 : Env, decodeOp e3 op2.type blob2
            (dst2.num_blocks * BLOCK_SIZE) =
            .ok (List.replicate (dst2.num_blocks * BLOCK_SIZE) 0) := by
          intro e3
          rw [hz]
          rfl
        rw [hv e1, hv e2, hdz e1, hdz e2]

/-- C2 witness: a concrete non-ZERO operation with a declared hash whose
lowercase hex differs from the digest of the (empty) encoded bytes fails
with the integrity error naming both digests. -/
theorem c2_witness :
    processOp env0 hashPayload file24 [110] hashOp =
      .error (.invalidData (.hashMismatch (hexEncode ([0] : Bytes))
        (hexEncode (env0.sha256 [])))) :=
  (c2_hash_over_encoded_bytes env0 hashPayload file24 [110] hashOp ⟨0, 0⟩ []
    rfl (by decide) (by decide) (by decide) (by decide)).1 env0 rfl

/-- C3: the data blob region starts at absolute offset
`HEADER_SIZE (= 24) + manifest_size + manifest_signature_size`; a blob read
of `len` bytes at relative offset `off` that stays inside the file returns
exactly the `len` bytes at absolute offset `dataOffset + off`; and an
operation's processing depends on the payload file only through the
`data_length` bytes at absolute offset `dataOffset + data_offset` (its
source bytes are read there and nowhere else). -/
theorem c3_data_blob_offset (p : Payload) (file : Bytes) (off len : Nat)
    (h : p.dataOffset + off + len ≤ file.length) :
    p.dataOffset =
      24 + p.header.manifest_size + p.header.manifest_signature_size
    ∧ HEADER_SIZE = 24
    ∧ readDataBlob file p off len =
        .ok ((file.drop (p.dataOffset + off)).take len)
    ∧ ((file.drop (p.dataOffset + off)).take len).length = len
    ∧ (∀ (env : Env) (name : Bytes) (op : InstallOperation) (file2 : Bytes),
        p.dataOffset + op.data_offset + op.data_length ≤ file.length →
        p.dataOffset + op.data_offset + op.data_length ≤ file2.length →
        (file.drop (p.dataOffset + op.data_offset)).take op.data_length =
          (file2.drop (p.dataOffset + op.data_offset)).take op.data_length →
        processOp env p file name op = processOp env p file2 name op) := by
  refine ⟨rfl, rfl, ?_, ?_, ?_⟩
  · unfold readDataBlob
    rw [if_pos h]
  · rw [List.length_take, List.length_drop]
    omega
  · intro env name op file2 h1 h2 hagree
    have hr1 : readDataBlob file p op.data_offset op.data_length =
        .ok ((file.drop (p.dataOffset + op.data_offset)).take
          op.data_length) := by
      unfold readDataBlob
      rw [if_pos h1]
    have hr2 : readDataBlob file2 p op.data_offset op.data_length =
        .ok ((file2.drop (p.dataOffset + op.data_offset)).take
          op.data_length) := by
      unfold readDataBlob
      rw [if_pos h2]
    simp only [processOp, hr1, hr2, hagree]

/-- C3 witness: a one-byte read at relative offset 0 of the concrete
25-byte payload file lands at absolute offset 24 and returns that byte. -/
theorem c3_witness :
    repPayload.dataOffset = 24 + repPayload.header.manifest_size +
      repPayload.header.manifest_signature_size
    ∧ HEADER_SIZE = 24
    ∧ readDataBlob file25 repPayload 0 1 =
        .ok ((file25.drop (repPayload.dataOffset + 0)).take 1)
    ∧ ((file25.drop (repPayload.dataOffset + 0)).take 1).length = 1 := by
  obtain ⟨a, b, c, d, _⟩ :=
    c3_data_blob_offset repPayload file25 0 1 (by decide)
  exact ⟨a, b, c, d⟩

/-- C4: a ZERO operation whose first destination extent spans `k` blocks
decodes to exactly `4096 * k` zero bytes and issues that write, whatever
bytes the blob read returned for it. -/
theorem c4_zero_operation (env : Env) (p : Payload) (file : Bytes)
    (name : Bytes) (op : InstallOperation) (dst : Extent) (k : Nat)
    (blob : Bytes) (htype : op.type = OpType.zero)
    (hdst : op.dst_extents.head? = some dst) (hk : dst.num_blocks = k)
    (hread : readDataBlob file p op.data_offset op.data_length = .ok blob) :
    processOp env p file name op =
      .ok (dst.start_block * BLOCK_SIZE, List.replicate (4096 * k) 0)
    ∧ (List.replicate (4096 * k) 0).length = 4096 * k := by
  refine ⟨?_, List.length_replicate _ _⟩
  simp only [processOp, hdst, hread]
  have hv : verifyHash env p op blob = .ok () := by
    unfold verifyHash
    rw [if_neg (by simp [htype])]
  rw [hv]
  have harg : dst.num_blocks * BLOCK_SIZE = 4096 * k := by
    rw [hk]
    exact Nat.mul_comm k 4096
  rw [htype, harg]
  rfl

/-- C4 witness: a concrete ZERO operation over one block, whose encoded
bytes are the single byte 171, produces the 4096-byte zero write. -/
theorem c4_witness :
    processOp env0 zeroPayload file25 [110] zeroOp =
      .ok ((⟨0, 1⟩ : Extent).start_block * BLOCK_SIZE,
        List.replicate (4096 * 1) 0)
    ∧ (List.replicate (4096 * 1) 0).length = 4096 * 1 :=
  c4_zero_operation env0 zeroPayload file25 [110] zeroOp ⟨0, 1⟩ 1 [171]
    rfl rfl rfl (by decide)

/-- C5: an operation whose declared type is not REPLACE, REPLACE_XZ,
REPLACE_BZ, REPLACE_ZSTD or ZERO fails to decode with an
unsupported-operation error carrying the type; an operation of such a type
that reaches the decode step fails the same way; and any failing operation
aborts the partition loop rather than being skipped. -/
theorem c5_unsupported_type (env : Env) (t : OpType) (blob : Bytes)
    (h1 : t ≠ .replace) (h2 : t ≠ .replaceXz) (h3 : t ≠ .replaceBz)
    (h4 : t ≠ .replaceZstd) (h5 : t ≠ .zero) :
    (∀ expected, decodeOp env t blob expected =
      .error (.other (.invalidOperationType t)))
    ∧ (∀ (p : Payload) (file name : Bytes) (op : InstallOperation)
        (dst : Extent), op.type = t → op.dst_extents.head? = some dst →
        readDataBlob file p op.data_offset op.data_length = .ok blob →
        verifyHash env p op blob = .ok () →
        processOp env p file name op =
          .error (.other (.invalidOperationType t)))
    ∧ (∀ (p : Payload) (file name : Bytes) (op : InstallOperation)
        (rest : List InstallOperation) (acc : List (Nat × Bytes))
        (e : IoError), processOp env p file name op = .error e →
        extractOps env p file name (op :: rest) acc = (acc, some e)) := by
  have hdec : ∀ expected, decodeOp env t blob expected =
      .error (.other (.invalidOperationType t)) := by
    intro expected
    cases t with
    | replace => exact absurd rfl h1
    | replaceXz => exact absurd rfl h2
    | replaceBz => exact absurd rfl h3
    | replaceZstd => exact absurd rfl h4
    | zero => exact absurd rfl h5
    | move => rfl
    | bsdiff => rfl
    | sourceCopy => rfl
    | sourceBsdiff => rfl
    | discard => rfl
    | puffdiff => rfl
    | brotliBsdiff => rfl
    | zucchini => rfl
    | lz4diffBsdiff => rfl
    | lz4diffPuffdiff => rfl
  refine ⟨hdec, ?_, ?_⟩
  · intro p file name op dst htype hdst hread hver
    simp only [processOp, hdst, hread, hver]
    rw [htype, hdec]
  · intro p file name op rest acc e h
    exact extractOps_abort env p file name op rest acc e h

/-- C5 witness: a MOVE operation (a delta type this extractor does not
implement) fails with the unsupported-operation error carrying MOVE, and a
failing first operation aborts the loop with no writes. -/
theorem c5_witness :
    decodeOp env0 .move [1] 8 =
      .error (.other (.invalidOperationType .move))
    ∧ extractOps env0 movePayload file25 [109] [moveOp] [] =
        ([], some (.other (.invalidOperationType .move))) :=
  ⟨(c5_unsupported_type env0 .move [1] (by decide) (by decide)
      (by decide) (by decide) (by decide)).1 8,
    (c5_unsupported_type env0 .move [171] (by decide) (by decide)
      (by decide) (by decide) (by decide)).2.2 movePayload file25 [109]
      moveOp [] [] (.other (.invalidOperationType .move)) (by decide)⟩

/-- C6: for a name absent from the (sorted, unique-named) partition list,
`extract` reports not-found and returns success with no operation
performed; no output file is created or modified for that name. -/
theorem c6_missing_partition_noop (env : Env) (p : Payload) (file : Bytes)
    (name : Bytes) (hs : strictByName p.partitions)
    (habs : name ∉ namesOf p.partitions) :
    extract env p file name = .notFound
    ∧ ∀ prior, applyExtract prior (extract env p file name) = prior := by
  obtain ⟨j, hj⟩ := partitionLookup_not_found hs habs
  have hnf : extract env p file name = .notFound := by
    unfold extract
    rw [hj]
  exact ⟨hnf, fun prior => by rw [hnf]; rfl⟩

/-- C6 witness: extracting the absent name "r" (byte 114) from the
one-partition payload reports not-found and leaves a pre-existing output
file untouched. -/
theorem c6_witness :
    extract env0 repPayload file25 [114] = .notFound
    ∧ applyExtract [5, 6] (extract env0 repPayload file25 [114]) = [5, 6] :=
  ⟨(c6_missing_partition_noop env0 repPayload file25 [114] (by decide)
      (by decide)).1,
    (c6_missing_partition_noop env0 repPayload file25 [114] (by decide)
      (by decide)).2 [5, 6]⟩

/-- C7: opening a payload whose manifest has unique partition names and
listing partitions yields exactly the manifest's names (a permutation of
them), strictly ascending in byte-wise order, hence without duplicates. -/
theorem c7_partition_list_sorted (hdr : Header)
    (parts : List PartitionUpdate) (vfy : Bool)
    (hnd : (namesOf parts).Nodup) :
    (partitionList (loadPayload hdr parts vfy)).Perm (namesOf parts)
    ∧ List.Sorted (fun a b : Bytes => a < b)
        (partitionList (loadPayload hdr parts vfy))
    ∧ (partitionList (loadPayload hdr parts vfy)).Nodup := by
  have hstrict : strictByName (sortPartitions parts) :=
    sortPartitions_strict hnd
  have hsorted : List.Sorted (fun a b : Bytes => a < b)
      ((sortPartitions parts).map fun q => q.partition_name) :=
    List.pairwise_map.mpr hstrict
  refine ⟨?_, hsorted, hsorted.imp fun h => ne_of_lt h⟩
  exact (sortPartitions_perm parts).map fun q => q.partition_name

/-- C7 witness: loading a three-partition manifest given in unsorted order
lists its names sorted ascending, without duplicates, as a permutation of
the manifest names. -/
theorem c7_witness :
    (partitionList (loadPayload hdr0 shuffledParts true)).Perm
      (namesOf shuffledParts)
    ∧ List.Sorted (fun a b : Bytes => a < b)
        (partitionList (loadPayload hdr0 shuffledParts true))
    ∧ (partitionList (loadPayload hdr0 shuffledParts true)).Nodup :=
  c7_partition_list_sorted hdr0 shuffledParts true (by decide)

/-- C8: over a name-sorted, unique-named partition list, lookup by name
returns an entry of the list bearing exactly the requested name whenever it
succeeds; it succeeds precisely for the names present in the list; and for
an absent name it returns the not-found outcome. -/
theorem c8_lookup_correct (ps : List PartitionUpdate) (name : Bytes)
    (hs : strictByName ps) :
    (∀ u, partitionLookup ps name = .ok u →
      u ∈ ps ∧ u.partition_name = name)
    ∧ ((∃ u, partitionLookup ps name = .ok u) ↔ name ∈ namesOf ps)
    ∧ (name ∉ namesOf ps → ∃ j, partitionLookup ps name = .error j) := by
  refine ⟨fun u hu => partitionLookup_ok hs hu, ⟨?_, ?_⟩,
    fun habs => partitionLookup_not_found hs habs⟩
  · rintro ⟨u, hu⟩
    have := partitionLookup_ok hs hu
    exact this.2 ▸ List.mem_map_of_mem (fun q => q.partition_name) this.1
  · intro hmem
    exact partitionLookup_found hs hmem

/-- C8 witness: on a sorted three-entry list, lookup finds the first and
the last entries by name, and an absent name yields the not-found
outcome. -/
theorem c8_witness :
    ((⟨[97], []⟩ : PartitionUpdate) ∈ sorted3
      ∧ (⟨[97], []⟩ : PartitionUpdate).partition_name = [97])
    ∧ ((⟨[99], []⟩ : PartitionUpdate) ∈ sorted3
      ∧ (⟨[99], []⟩ : PartitionUpdate).partition_name = [99])
    ∧ partitionLookup sorted3 [122] = .error 3 :=
  ⟨(c8_lookup_correct sorted3 [97] (by decide)).1 ⟨[97], []⟩ (by decide),
    (c8_lookup_correct sorted3 [99] (by decide)).1 ⟨[99], []⟩ (by decide),
    by decide⟩

/-- C9: extraction of a partition whose operations are all REPLACE is
idempotent on the output file: `File::create` truncates, so the second
run rebuilds byte-identical contents whatever the first run left. -/
theorem c9_extract_idempotent (env : Env) (p : Payload) (file : Bytes)
    (name : Bytes) (part : PartitionUpdate)
    (hfound : partitionLookup p.partitions name = .ok part)
    (hrep : ∀ op ∈ part.operations, op.type = OpType.replace) :
    ∀ prior,
      applyExtract (applyExtract prior (extract env p file name))
          (extract env p file name)
        = applyExtract prior (extract env p file name) := by
  intro prior
  have hrun : extract env p file name =
      .run (extractOps env p file part.partition_name part.operations []).1
        (extractOps env p file part.partition_name part.operations []).2 := by
    unfold extract
    rw [hfound]
  rw [hrun]
  rfl

/-- C9 witness: extracting the all-REPLACE partition twice into the same
output file leaves the same bytes as extracting it once, starting from a
nonempty prior file. -/
theorem c9_witness :
    applyExtract (applyExtract [9, 9] (extract env0 repPayload file25 [112]))
        (extract env0 repPayload file25 [112])
      = applyExtract [9, 9] (extract env0 repPayload file25 [112]) :=
  c9_extract_idempotent env0 repPayload file25 [112] repPart (by decide)
    (by decide) [9, 9]

/-- C10: an operation with an empty destination-extent list makes
`extract` fail for its partition with the invalid-data error naming the
partition, before reading that operation's source bytes (the theorem holds
for every payload file, including ones where the operation's declared
source range lies outside the file) and before writing anything for it:
the successful predecessors contribute exactly one write each and the
failing operation none. -/
theorem c10_empty_dst_extents (env : Env) (p : Payload) (file nm : Bytes)
    (part : PartitionUpdate) (pre rest : List InstallOperation)
    (op : InstallOperation)
    (hfound : partitionLookup p.partitions nm = .ok part)
    (hops : part.operations = pre ++ op :: rest)
    (hdst : op.dst_extents = [])
    (hpre : ∀ q ∈ pre, ∃ w, processOp env p file part.partition_name q = .ok w) :
    runErr (extract env p file nm) =
      some (.invalidData (.invalidDstExtents part.partition_name))
    ∧ (runWrites (extract env p file nm)).length = pre.length := by
  have hop : processOp env p file part.partition_name op =
      .error (.invalidData (.invalidDstExtents part.partition_name)) := by
    unfold processOp
    rw [hdst]
    rfl
  obtain ⟨ws, hws, hlen⟩ :=
    extractOps_prefix_ok env p file part.partition_name pre (op :: rest) []
      hpre
  have habort :
      extractOps env p file part.partition_name (op :: rest) ([] ++ ws) =
        ([] ++ ws,
          some (.invalidData (.invalidDstExtents part.partition_name))) :=
    extractOps_abort env p file part.partition_name op rest ([] ++ ws) _ hop
  have hrun : extract env p file nm =
      .run ws (some (.invalidData (.invalidDstExtents
        part.partition_name))) := by
    unfold extract
    rw [hfound]
    dsimp only
    rw [hops, hws, habort]
    simp
  rw [hrun]
  exact ⟨rfl, hlen⟩

/-- C10 witness: a partition whose second operation has no destination
extents fails with the invalid-data error naming the partition after
exactly the first operation's single write, even though that second
operation's declared source range (offset 5000, length 5000) lies entirely
outside the 25-byte payload file. -/
theorem c10_witness :
    runErr (extract env0 badExtentsPayload file25 [113]) =
      some (.invalidData (.invalidDstExtents [113]))
    ∧ (runWrites (extract env0 badExtentsPayload file25 [113])).length = 1 :=
  c10_empty_dst_extents env0 badExtentsPayload file25 [113] badExtentsPart
    [⟨.replace, 0, 1, [], [⟨0, 1⟩]⟩] [] ⟨.replace, 5000, 5000, [], []⟩
    (by decide) rfl rfl
    (fun q hq => by
      simp only [List.mem_singleton] at hq
      exact ⟨(0, [171]), by rw [hq]; decide⟩)

end PayloadDumper
